import Mathlib

/-!
Shallow embedding of the TS_XL_Modifier record-extraction pipeline
(`src/app.py`) and proofs about it.

Scalars read from a spreadsheet cell are modelled as `Option String`:
`none` stands for a missing value (pandas `NaN`), `some s` for the string
rendering of the cell.  `strOfScalar` is Python's `str()` on such a value
(`str(nan) = "nan"`).  Python string primitives (`.strip()`, `.upper()`,
`in`, `.startswith`, slicing) are modelled by executable functions on
`List Char` / `String` below.
-/

namespace TSXL

/-- ASCII whitespace test, matching what Python's `strip`/`split` do on the
data handled by the app. -/
def isWSb (c : Char) : Bool :=
  c == ' ' || c == '\t' || c == '\n' || c == '\r'

/-- The lower/upper pairs ASCII `str.upper` acts on. -/
def upPairs : List (Char × Char) :=
  [('a','A'), ('b','B'), ('c','C'), ('d','D'), ('e','E'), ('f','F'),
   ('g','G'), ('h','H'), ('i','I'), ('j','J'), ('k','K'), ('l','L'),
   ('m','M'), ('n','N'), ('o','O'), ('p','P'), ('q','Q'), ('r','R'),
   ('s','S'), ('t','T'), ('u','U'), ('v','V'), ('w','W'), ('x','X'),
   ('y','Y'), ('z','Z')]

/-- Python `str.upper` restricted to ASCII, as a character map: a lowercase
letter is replaced by its uppercase partner, everything else is unchanged. -/
def asciiUpper (c : Char) : Char :=
  match upPairs.find? (fun p => p.1 == c) with
  | some p => p.2
  | none => c

/-- Python `str.strip()` on a character list. -/
def pyStripL (l : List Char) : List Char :=
  ((l.dropWhile isWSb).reverse.dropWhile isWSb).reverse

/-- Python `str.strip()`. -/
def pyStrip (s : String) : String :=
  (pyStripL s.toList).asString

/-- Python `str.upper()` (ASCII). -/
def pyUpper (s : String) : String :=
  (s.toList.map asciiUpper).asString

/-- Python `s.strip().upper()`, the normalization used throughout app.py. -/
def normSU (s : String) : String :=
  pyUpper (pyStrip s)

/-- Python `s.upper().strip()` (the order used in `standardize_columns`). -/
def normUS (s : String) : String :=
  pyStrip (pyUpper s)

/-- Python substring test `pat in hay` on character lists. -/
def isInfixL (pat : List Char) : List Char → Bool
  | [] => pat.isEmpty
  | c :: rest => pat.isPrefixOf (c :: rest) || isInfixL pat rest

/-- Python substring test `pat in hay`. -/
def containsStr (hay pat : String) : Bool :=
  isInfixL pat.toList hay.toList

/-- A cell value: `none` is pandas `NaN`, `some s` a string scalar. -/
abbrev Scalar := Option String

/-- Python `str()` on a scalar (`str(nan) = "nan"`). -/
def strOfScalar : Scalar → String
  | none => "nan"
  | some s => s

/-- Uppercase Latin letter test. -/
def isUpperAZ (c : Char) : Bool :=
  'A' ≤ c && c ≤ 'Z'

/-- Character class `[A-Z0-9]` of app.py's VIN regexes. -/
def isAlnumUp (c : Char) : Bool :=
  isUpperAZ c || c.isDigit

/-- The cleaning performed inside `get_vin_status`: `strip()`, `upper()`,
then `re.sub(r'[^A-Z0-9]', '', v)`. -/
def vinCleanL (s : String) : List Char :=
  ((pyStripL s.toList).map asciiUpper).filter isAlnumUp

/-- app.py `get_vin_status` (lines 94-101). -/
def get_vin_status : Scalar → Bool × String
  | none => (false, "Empty/NaN")
  | some raw =>
    let v := vinCleanL raw
    if v.length ≠ 17 then
      (false, "Invalid Length (" ++ toString v.length ++ ")")
    else if !((v.drop (v.length - 6)).all Char.isDigit) then
      (false, "Suffix Not Numeric (" ++ (v.drop (v.length - 6)).asString ++ ")")
    else (true, "OK")

/-- app.py `BRAND_TO_CODE` (lines 71-88), in source order. -/
def brandTable : List (String × String) :=
  [("OPEL", "OPEL"), ("VAUX", "OPEL"), ("VAUXHALL", "OPEL"),
   ("CITROEN", "CITR"), ("CITR", "CITR"), ("PEUGEOT", "PEUG"),
   ("PEUG", "PEUG"), ("INEOS", "INO"), ("ASTON MARTIN", "AML"),
   ("BENTLEY", "BML"), ("JAGUAR LANDROVER", "JLR"), ("JLR", "JLR"),
   ("FIAT", "FIAT"), ("JEEP", "JEEP"), ("FORD", "FORD"),
   ("TOYOTA", "TOYOTA")]

/-- app.py `map_brand` (lines 103-109): exact dict hit, then first
substring hit in table order, else the normalized input; `NaN` gives `""`. -/
def map_brand (x : Scalar) : String :=
  match x with
  | none => ""
  | some s =>
    let b := normSU s
    match brandTable.find? (fun kc => kc.1 == b) with
    | some kc => kc.2
    | none =>
      match brandTable.find? (fun kc => containsStr b kc.1) with
      | some kc => kc.2
      | none => b

/-- One standardized record row with the three canonical columns, before
validation (fields are raw scalars). -/
structure Row where
  VIN : Scalar
  BRAND : Scalar
  MODEL : Scalar
deriving DecidableEq

/-- app.py `prefix_map` inside `clean_model_name` (line 121). -/
def legacyPrefixTable : List (String × String) :=
  [("PEUG", "P"), ("CITR", "C"), ("OPEL", "O"), ("FIAT", "F")]

/-- app.py `clean_model_name` (lines 111-127). -/
def clean_model_name (row : Row) : String :=
  let brand_code := map_brand row.BRAND
  let raw_brand_name := normSU (strOfScalar row.BRAND)
  let model_raw := normSU (strOfScalar row.MODEL)
  if model_raw = "" then ""
  else if raw_brand_name ≠ "" ∧ raw_brand_name.toList.isPrefixOf model_raw.toList then
    (pyStripL (model_raw.toList.drop raw_brand_name.toList.length)).asString
  else
    match legacyPrefixTable.find? (fun pc => pc.1 == brand_code) with
    | some pc =>
      if pc.2.toList.isPrefixOf model_raw.toList then
        let stripped := (pyStripL (model_raw.toList.drop 1)).asString
        if stripped ≠ "" then stripped else model_raw
      else model_raw
    | none => model_raw

/-- An untyped grid: one spreadsheet sheet or pasted block, row-major. -/
abbrev Grid := List (List Scalar)

/-- Context keywords of `find_header_row` (line 135). -/
def contextKeys : List String :=
  ["MAKE", "BRAND", "MODEL", "MAKER", "OEM", "COMMODITY", "CUST", "DESTINATION"]

/-- Embeds `[str(val).strip().upper() for val in df.iloc[i].tolist()]` (line 131). -/
def rowLabels (cells : List Scalar) : List String :=
  cells.map (fun v => normSU (strOfScalar v))

/-- Embeds `any("VIN" == col or "VIN" in col for col in row_values)` (line 132). -/
def rowHasVin (cells : List Scalar) : Bool :=
  (rowLabels cells).any (fun col => col == "VIN" || containsStr col "VIN")

/-- Embeds `any("COUNT OF" in col for col in row_values)` (line 133), the pivot
guard. -/
def rowHasCountOf (cells : List Scalar) : Bool :=
  (rowLabels cells).any (fun col => containsStr col "COUNT OF")

/-- Embeds `any(k in val ...)` over the context keyword set (line 135). -/
def rowHasContext (cells : List Scalar) : Bool :=
  (rowLabels cells).any (fun v => contextKeys.any (fun k => containsStr v k))

/-- A row is returned by `find_header_row` iff it is not COUNT-OF flagged,
mentions VIN and has a context keyword (lines 132-136). -/
def goodHeader (cells : List Scalar) : Bool :=
  !rowHasCountOf cells && (rowHasVin cells && rowHasContext cells)

/-- The scan loop of `find_header_row`: at most `k` rows are examined. -/
def findHeaderAux : Nat → List (List Scalar) → Option Nat
  | 0, _ => none
  | _ + 1, [] => none
  | k + 1, row :: rest =>
    if goodHeader row then some 0 else (findHeaderAux k rest).map (· + 1)

/-- app.py `find_header_row` (lines 129-137); the app always calls it with
the default `scan_limit = 50`. -/
def find_header_row (g : Grid) (scanLimit : Nat) : Option Nat :=
  findHeaderAux scanLimit g

/-- Embeds `c_up = str(c).upper().strip()` used by `standardize_columns`. -/
def labelNorm (l : String) : String :=
  normUS l

/-- Brand synonyms of `standardize_columns` (line 149). -/
def makeKeys : List String :=
  ["MAKE", "BRAND", "OEM", "MAKER"]

/-- Column-claiming policy of `standardize_columns` (lines 139-156): first
VIN-like label, then the first unclaimed brand-like label, then the first
unclaimed MODEL-like label. -/
def colIdxs (labels : List String) : Option Nat × Option Nat × Option Nat :=
  let v : Option Nat :=
    (labels.enum.find? (fun jl => containsStr (labelNorm jl.2) "VIN")).map (·.1)
  let b : Option Nat := (labels.enum.find? (fun jl =>
    decide (some jl.1 ≠ v) && makeKeys.any (fun k => containsStr (labelNorm jl.2) k))).map (·.1)
  let m : Option Nat := (labels.enum.find? (fun jl =>
    decide (some jl.1 ≠ v) && (decide (some jl.1 ≠ b) && containsStr (labelNorm jl.2) "MODEL"))).map (·.1)
  (v, b, m)

/-- Reading one canonical column from a data row: a missing mapping is the
synthesized all-empty column `df[req] = ""` (line 159); a short row pads
with `NaN` as pandas does. -/
def getCol (cells : List Scalar) : Option Nat → Scalar
  | none => some ""
  | some j => cells.getD j none

/-- Embeds the suffixed unique header labels of lines 297 and 378: each
column label is the stripped header text, an underscore, and its index. -/
def headerLabels (headerRow : List Scalar) : List String :=
  headerRow.enum.map (fun ih => pyStrip (strOfScalar ih.2) ++ "_" ++ toString ih.1)

/-- Slice the data below the located header and standardize its columns
(lines 295-299 / 376-380). -/
def sheetToRows (g : Grid) (hIdx : Nat) : List Row :=
  let labels := headerLabels (g.getD hIdx [])
  let idxs := colIdxs labels
  (g.drop (hIdx + 1)).map (fun cells =>
    { VIN := getCol cells idxs.1, BRAND := getCol cells idxs.2.1, MODEL := getCol cells idxs.2.2 })

/-- A channel-output record as it sits in `file_df` / `ocr_df` / `paste_df`:
`BRAND` has been through `map_brand`, `MODEL` is the cleaned string, `VIN`
is whatever scalar the channel stored. -/
structure Rec where
  VIN : Scalar
  BRAND : String
  MODEL : String
deriving DecidableEq

/-- Embeds the row-wise model cleaning `df_mapped.apply(clean_model_name, axis=1)`
(lines 300 / 381). -/
def withCleanModel (row : Row) : Row :=
  { row with MODEL := some (clean_model_name row) }

/-- tab1's row filter (lines 303-305): VIN status true and raw brand
string-form non-blank. -/
def vinBrandKeep (row : Row) : Bool :=
  (get_vin_status row.VIN).fst && decide (pyStrip (strOfScalar row.BRAND) ≠ "")

/-- tab3's row filter (lines 384-385): VIN status true only. -/
def vinKeep (row : Row) : Bool :=
  (get_vin_status row.VIN).fst

/-- Embeds the brand normalization pass `.apply(map_brand)` plus the shape
of the stored record (lines 308 / 388). -/
def normBrand (row : Row) : Rec :=
  { VIN := row.VIN, BRAND := map_brand row.BRAND, MODEL := strOfScalar row.MODEL }

/-- The spreadsheet channel's per-sheet record pipeline (lines 300-308). -/
def sheetRows (rows : List Row) : List Rec :=
  ((rows.map withCleanModel).filter vinBrandKeep).map normBrand

/-- The pasted-text channel's record pipeline (lines 381-388): same as the
sheet pipeline but with no brand-emptiness filter. -/
def pasteRows (rows : List Row) : List Rec :=
  ((rows.map withCleanModel).filter vinKeep).map normBrand

/-- The OCR confusion-correction map
`replace('O','0').replace('Q','0').replace('I','1')` (line 214). -/
def fixC (c : Char) : Char :=
  if c = 'O' then '0' else if c = 'Q' then '0' else if c = 'I' then '1' else c

/-- Word character of the regex `\b` boundary (`[A-Za-z0-9_]`). -/
def isWordChar (c : Char) : Bool :=
  c.isAlpha || c.isDigit || c == '_'

/-- Does a maximal word-character run match `([A-Z0-9]{17})`? -/
def vinTokOk (run : List Char) : Bool :=
  run.length == 17 && run.all isAlnumUp

/-- Left-to-right search for `\b([A-Z0-9]{17})\b` (line 207/210): `acc` is
the reversed text before the current run, `cur` the reversed current
word-character run.  On a hit it returns the text before the match and the
matched token. -/
def scanAux : List Char → List Char → List Char → Option (List Char × List Char)
  | acc, cur, [] => if vinTokOk cur then some (acc.reverse, cur.reverse) else none
  | acc, cur, c :: rest =>
    if isWordChar c then scanAux acc (c :: cur) rest
    else if vinTokOk cur then some (acc.reverse, cur.reverse)
    else scanAux (c :: (cur ++ acc)) [] rest

/-- Embeds `vin_pattern.search(line)`: text before the first match, and the match. -/
def lineScan (cs : List Char) : Option (List Char × List Char) :=
  scanAux [] [] cs

/-- A record produced by `extract_vins_from_image` before tab2's
`map_brand` pass: all three fields are plain strings. -/
structure OcrRec where
  VIN : String
  BRAND : String
  MODEL : String
deriving DecidableEq

/-- Python `str.split()` (whitespace tokenize, no empty tokens); `cur` is
the reversed current token. -/
def splitWSAux : List Char → List Char → List (List Char)
  | cur, [] => if cur = [] then [] else [cur.reverse]
  | cur, c :: rest =>
    if isWSb c then
      if cur = [] then splitWSAux [] rest else cur.reverse :: splitWSAux [] rest
    else splitWSAux (c :: cur) rest

/-- Embeds `clean_text.split()` (line 218). -/
def tokenizeWS (cs : List Char) : List (List Char) :=
  splitWSAux [] cs

/-- Python `" ".join(parts)`. -/
def joinTokens : List (List Char) → List Char
  | [] => []
  | [t] => t
  | t :: ts => t ++ ' ' :: joinTokens ts

/-- Embeds `part in VALID_BRAND_KEYS` (line 225). -/
def brandKeyMem (p : List Char) : Bool :=
  brandTable.any (fun kc => kc.1.toList == p)

/-- The brand-token loop of `extract_vins_from_image` (lines 223-231):
first token in the key set, together with all later tokens. -/
def findBrandTok : List (List Char) → Option (List Char × List (List Char))
  | [] => none
  | p :: ps => if brandKeyMem p then some (p, ps) else findBrandTok ps

/-- Embeds the cleaning sub of line 217, which keeps capital alphanumerics and
whitespace (line 217). -/
def keepPreChar (c : Char) : Bool :=
  isAlnumUp c || isWSb c

/-- Embeds `line[:vin_match.start()].strip()` uppercased, cleaned and tokenized
(lines 216-218). -/
def ocrParts (preText : List Char) : List (List Char) :=
  tokenizeWS (((pyStripL preText).map asciiUpper).filter keepPreChar)

/-- One line of the loop body of `extract_vins_from_image` (lines 209-243). -/
def processLine (db dm line : String) : Option OcrRec :=
  match lineScan line.toList with
  | none => none
  | some (preText, tok) =>
    let cleaned := (tok.map fixC).asString
    let parts := ocrParts preText
    let bm : String × String :=
      match findBrandTok parts with
      | some bt => (bt.1.asString, (joinTokens bt.2).asString)
      | none => (db, dm)
    let model := if pyStripL bm.2.toList = [] then dm else bm.2
    some { VIN := cleaned, BRAND := bm.1, MODEL := model }

/-- app.py `extract_vins_from_image` (lines 198-245) after the opaque OCR
engine produced its text, given as a list of lines. -/
def extract_vins_from_text (lines : List String) (db dm : String) : List OcrRec :=
  lines.filterMap (processLine db dm)

/-- tab2 (lines 342-345): OCR extraction followed by `map_brand` on the
brand column. -/
def ocrChannel (lines : List String) (db dm : String) : List Rec :=
  (extract_vins_from_text lines db dm).map (fun r =>
    { VIN := some r.VIN, BRAND := map_brand (some r.BRAND), MODEL := r.MODEL })

/-- Outcome of one sheet of the tab1 loop (lines 290-310). -/
inductive SheetResult where
  | skippedEmpty
  | noHeader
  | crashed (msg : String)
  | ok (recs : List Rec)
deriving DecidableEq

/-- One iteration of tab1's per-sheet loop (lines 290-310).  A sheet whose
header is its last row leaves zero data rows, so the unpacking
`df_debug["Status"], _ = zip(*...)` raises `ValueError`; the bare
`except: continue` turns any such fault into a silent skip. -/
def processSheet (g : Grid) : SheetResult :=
  if g = [] then .skippedEmpty
  else
    match find_header_row g 50 with
    | none => .noHeader
    | some i =>
      if sheetToRows g i = [] then
        .crashed "not enough values to unpack (expected 2, got 0)"
      else .ok (sheetRows (sheetToRows g i))

/-- The records a sheet contributes to `all_clean_frames`. -/
def sheetRecords (g : Grid) : List Rec :=
  match processSheet g with
  | .ok rs => rs
  | _ => []

/-- Embeds `file_df`: concatenation of all per-sheet clean frames (lines 312-313). -/
def tab1Records (gs : List Grid) : List Rec :=
  (gs.map sheetRecords).flatten

/-- Everything tab1 surfaces to the user about sheet processing: only the
success banner (line 314); per-sheet faults surface nothing. -/
def tab1Messages (gs : List Grid) : List String :=
  if tab1Records gs = [] then []
  else ["Loaded " ++ toString (tab1Records gs).length ++ " vehicles from file."]

/-- Embeds `drop_duplicates(subset=["VIN"], keep="first")` (line 414), with the
set of already-seen VINs made explicit. -/
def dedupVinAux (seen : List Scalar) : List Rec → List Rec
  | [] => []
  | r :: rs =>
    if r.VIN ∈ seen then dedupVinAux seen rs
    else r :: dedupVinAux (r.VIN :: seen) rs

/-- Embeds `final_df.drop_duplicates(subset=["VIN"], keep="first")`. -/
def dedupByVin (l : List Rec) : List Rec :=
  dedupVinAux [] l

/-- The merge-and-deduplicate block (lines 404-415): channel frames
concatenated in the fixed order file, OCR, paste, then deduplicated. -/
def finalRecords (fileL ocrL pasteL : List Rec) : List Rec :=
  dedupByVin (fileL ++ ocrL ++ pasteL)

/-- Embeds `dedup_count = initial_count - len(final_df)` (lines 413-415). -/
def dedupCount (l : List Rec) : Nat :=
  l.length - (dedupByVin l).length

theorem asString_toList (l : List Char) : (List.asString l).toList = l := rfl

theorem asciiUpper_split (c : Char) :
    asciiUpper c = c ∨ (c, asciiUpper c) ∈ upPairs := by
  cases h : upPairs.find? (fun p => p.1 == c) with
  | none =>
    left
    unfold asciiUpper
    rw [h]
  | some p =>
    right
    have hm := List.mem_of_find?_eq_some h
    have hb : p.1 = c := by simpa using List.find?_some h
    have hu : asciiUpper c = p.2 := by unfold asciiUpper; rw [h]
    rw [hu, ← hb]
    simpa using hm

theorem upPairs_facts :
    ∀ p ∈ upPairs, isWSb p.2 = false ∧ isWSb p.1 = false ∧
      isAlnumUp p.1 = false ∧ asciiUpper p.2 = p.2 := by decide

theorem isWSb_asciiUpper (c : Char) : isWSb (asciiUpper c) = isWSb c := by
  rcases asciiUpper_split c with h | h
  · rw [h]
  · obtain ⟨h2, h1, -, -⟩ := upPairs_facts _ h
    rw [h2, h1]

theorem asciiUpper_idem (c : Char) : asciiUpper (asciiUpper c) = asciiUpper c := by
  rcases asciiUpper_split c with h | h
  · rw [h]
    exact h
  · exact (upPairs_facts _ h).2.2.2

theorem ws_cases (c : Char) (h : isWSb c = true) :
    c = ' ' ∨ c = '\t' ∨ c = '\n' ∨ c = '\r' := by
  simpa [isWSb, or_assoc] using h

theorem alnum_asciiUpper_of_ws (c : Char) (h : isWSb c = true) :
    isAlnumUp (asciiUpper c) = false := by
  rcases asciiUpper_split c with he | he
  · rw [he]
    rcases ws_cases c h with rfl | rfl | rfl | rfl <;> decide
  · exact absurd h (by rw [(upPairs_facts _ he).2.1]; decide)

theorem dw_map_comm (l : List Char) :
    (l.map asciiUpper).dropWhile isWSb = (l.dropWhile isWSb).map asciiUpper := by
  induction l with
  | nil => rfl
  | cons c t ih =>
    by_cases hc : isWSb c = true <;>
      simp [List.dropWhile_cons, isWSb_asciiUpper, hc, ih]

theorem strip_map_comm (l : List Char) :
    pyStripL (l.map asciiUpper) = (pyStripL l).map asciiUpper := by
  unfold pyStripL
  rw [dw_map_comm, ← List.map_reverse, dw_map_comm, ← List.map_reverse]

theorem dropWhile_idem (p : Char → Bool) (l : List Char) :
    (l.dropWhile p).dropWhile p = l.dropWhile p := by
  induction l with
  | nil => rfl
  | cons a t ih =>
    by_cases h : p a = true <;> simp [List.dropWhile_cons, h, ih]

theorem dwHead? (p : Char → Bool) (l : List Char) (c : Char)
    (h : (l.dropWhile p).head? = some c) : p c = false := by
  induction l with
  | nil => simp at h
  | cons a t ih =>
    by_cases ha : p a = true
    · rw [List.dropWhile_cons, if_pos ha] at h
      exact ih h
    · rw [List.dropWhile_cons, if_neg ha] at h
      simp at h
      subst h
      simpa using ha

theorem getLast?_dropWhile (p : Char → Bool) (l : List Char)
    (hne : l.dropWhile p ≠ []) : (l.dropWhile p).getLast? = l.getLast? := by
  induction l with
  | nil => simp at hne
  | cons a t ih =>
    by_cases ha : p a = true
    · rw [List.dropWhile_cons, if_pos ha] at hne ⊢
      have ht : t ≠ [] := by
        intro he
        exact hne (by simp [he])
      obtain ⟨b, t', rfl⟩ := List.exists_cons_of_ne_nil ht
      rw [List.getLast?_cons_cons]
      exact ih hne
    · rw [List.dropWhile_cons, if_neg ha]

theorem dw_of_head_not (p : Char → Bool) (l : List Char)
    (h : ∀ c, l.head? = some c → p c = false) : l.dropWhile p = l := by
  cases l with
  | nil => rfl
  | cons a t =>
    rw [List.dropWhile_cons, if_neg]
    simp [h a rfl]

theorem pyStripL_idem (l : List Char) : pyStripL (pyStripL l) = pyStripL l := by
  have hy : (pyStripL l).dropWhile isWSb = pyStripL l := by
    apply dw_of_head_not
    intro c hc
    unfold pyStripL at hc
    rw [List.head?_reverse] at hc
    have hne : (l.dropWhile isWSb).reverse.dropWhile isWSb ≠ [] := by
      intro he
      rw [he] at hc
      simp at hc
    rw [getLast?_dropWhile _ _ hne, List.getLast?_reverse] at hc
    exact dwHead? _ _ _ hc
  have hrev : (pyStripL l).reverse = (l.dropWhile isWSb).reverse.dropWhile isWSb := by
    unfold pyStripL
    rw [List.reverse_reverse]
  calc pyStripL (pyStripL l)
      = (((pyStripL l).dropWhile isWSb).reverse.dropWhile isWSb).reverse := rfl
    _ = ((pyStripL l).reverse.dropWhile isWSb).reverse := by rw [hy]
    _ = (((l.dropWhile isWSb).reverse.dropWhile isWSb).dropWhile isWSb).reverse := by rw [hrev]
    _ = ((l.dropWhile isWSb).reverse.dropWhile isWSb).reverse := by rw [dropWhile_idem]
    _ = pyStripL l := rfl

theorem pyUpperL_idem (l : List Char) :
    (l.map asciiUpper).map asciiUpper = l.map asciiUpper := by
  rw [List.map_map]
  exact List.map_congr_left fun c _ => asciiUpper_idem c

theorem pyStrip_idem (s : String) : pyStrip (pyStrip s) = pyStrip s := by
  unfold pyStrip
  rw [asString_toList, pyStripL_idem]

theorem pyStrip_pyUpper (s : String) : pyStrip (pyUpper s) = pyUpper (pyStrip s) := by
  unfold pyStrip pyUpper
  rw [asString_toList, asString_toList, strip_map_comm]

theorem pyUpper_idem (s : String) : pyUpper (pyUpper s) = pyUpper s := by
  unfold pyUpper
  rw [asString_toList, pyUpperL_idem]

theorem normSU_idem (s : String) : normSU (normSU s) = normSU s := by
  unfold normSU
  rw [pyStrip_pyUpper, pyStrip_idem, pyUpper_idem]

theorem filt_map_dw (l : List Char) :
    ((l.dropWhile isWSb).map asciiUpper).filter isAlnumUp
      = (l.map asciiUpper).filter isAlnumUp := by
  induction l with
  | nil => rfl
  | cons c t ih =>
    by_cases h : isWSb c = true
    · rw [List.dropWhile_cons, if_pos h, ih]
      simp [List.filter_cons, alnum_asciiUpper_of_ws c h]
    · rw [List.dropWhile_cons, if_neg h]

theorem vinCleanL_eq (s : String) :
    vinCleanL s = (s.toList.map asciiUpper).filter isAlnumUp := by
  unfold vinCleanL pyStripL
  rw [List.map_reverse, List.filter_reverse, filt_map_dw, List.map_reverse,
    List.filter_reverse, List.reverse_reverse, filt_map_dw]

theorem get_vin_status_some (s : String) :
    get_vin_status (some s)
      = (if (vinCleanL s).length ≠ 17 then
          (false, "Invalid Length (" ++ toString (vinCleanL s).length ++ ")")
        else if !(((vinCleanL s).drop ((vinCleanL s).length - 6)).all Char.isDigit) then
          (false, "Suffix Not Numeric ("
            ++ ((vinCleanL s).drop ((vinCleanL s).length - 6)).asString ++ ")")
        else (true, "OK")) := rfl

/-- Claim C2: `get_vin_status` reports valid iff the input, uppercased with
every character outside `[A-Z0-9]` removed, has length 17 and an all-digit
6-character suffix; missing/NaN is invalid with an Empty reason, a wrong
length is rejected with the observed cleaned length in the reason, and a
non-numeric suffix is rejected with the offending suffix in the reason. -/
theorem get_vin_status_spec :
    (∀ s : String, (get_vin_status (some s)).fst = true ↔
      (((s.toList.map asciiUpper).filter isAlnumUp).length = 17 ∧
        (((s.toList.map asciiUpper).filter isAlnumUp).drop 11).all Char.isDigit = true))
    ∧ get_vin_status none = (false, "Empty/NaN")
    ∧ containsStr "Empty/NaN" "Empty" = true
    ∧ (∀ s : String, (vinCleanL s).length ≠ 17 →
        (get_vin_status (some s)).snd
          = "Invalid Length (" ++ toString (vinCleanL s).length ++ ")")
    ∧ (∀ s : String, (vinCleanL s).length = 17 →
        ((vinCleanL s).drop 11).all Char.isDigit = false →
        (get_vin_status (some s)).snd
          = "Suffix Not Numeric (" ++ ((vinCleanL s).drop 11).asString ++ ")") := by
  refine ⟨fun s => ?_, rfl, by decide, fun s h => ?_, fun s h1 h2 => ?_⟩
  · rw [← vinCleanL_eq, get_vin_status_some]
    split_ifs with h1 h2
    · constructor
      · intro hF
        simp at hF
      · intro hc
        exact absurd hc.1 h1
    · have hl : (vinCleanL s).length = 17 := not_not.mp h1
      constructor
      · intro hF
        simp at hF
      · rintro ⟨-, hd⟩
        rw [hl] at h2
        simp at h2
        obtain ⟨x, hx, hxf⟩ := h2
        simp at hd
        rw [hd x hx] at hxf
        cases hxf
    · have hl : (vinCleanL s).length = 17 := not_not.mp h1
      have hd : ((vinCleanL s).drop 11).all Char.isDigit = true := by
        simp only [Bool.not_eq_true', Bool.not_eq_false] at h2
        rw [hl] at h2
        simpa using h2
      simp [hl, hd]
  · rw [get_vin_status_some, if_pos h]
  · rw [get_vin_status_some, if_neg (by omega), if_pos (by rw [h1]; simp [h2]), h1]

/-- Claim C6: `map_brand` returns the code of a verbatim key, else the code
of the first key in table order occurring as a substring of the normalized
input, else the input uppercased and trimmed; a missing input gives `""`. -/
theorem map_brand_spec :
    (∀ p ∈ brandTable, map_brand (some p.1) = p.2)
    ∧ (∀ s : String, brandTable.find? (fun kc => kc.1 == normSU s) = none →
        ∀ kc, brandTable.find? (fun kc => containsStr (normSU s) kc.1) = some kc →
          map_brand (some s) = kc.2)
    ∧ (∀ s : String, brandTable.find? (fun kc => kc.1 == normSU s) = none →
        brandTable.find? (fun kc => containsStr (normSU s) kc.1) = none →
          map_brand (some s) = normSU s)
    ∧ map_brand none = "" := by
  have hbody : ∀ s : String, map_brand (some s)
      = (match brandTable.find? (fun kc => kc.1 == normSU s) with
        | some kc => kc.2
        | none =>
          match brandTable.find? (fun kc => containsStr (normSU s) kc.1) with
          | some kc => kc.2
          | none => normSU s) := fun _ => rfl
  refine ⟨by decide, fun s h1 kc h2 => ?_, fun s h1 h2 => ?_, rfl⟩
  · rw [hbody, h1, h2]
  · rw [hbody, h1, h2]

/-- Witness for C6 at a concrete input: `" vauxhall uk"` has no exact key
hit, and the first substring hit in table order is `VAUX → OPEL`. -/
theorem map_brand_spec_witness : map_brand (some " vauxhall uk") = "OPEL" := by
  have h := map_brand_spec.2.1 " vauxhall uk" (by decide) ("VAUX", "OPEL") (by decide)
  exact h

/-- Witness for C2 at concrete inputs: `"ABC123"` cleans to length 6 and is
rejected with that length in the reason (spec scenario 3). -/
theorem get_vin_status_spec_witness :
    (get_vin_status (some "ABC123")).snd = "Invalid Length (6)"
    ∧ (get_vin_status (some "VF1AB12345678901A")).snd = "Suffix Not Numeric (78901A)"
    ∧ ((get_vin_status (some " vf1ab 12345 6789012 ")).fst = true) := by
  refine ⟨?_, ?_, ?_⟩
  · have h := get_vin_status_spec.2.2.2.1 "ABC123" (by decide)
    rw [h]
    rfl
  · have h := get_vin_status_spec.2.2.2.2 "VF1AB12345678901A" (by decide) (by decide)
    rw [h]
    decide
  · exact (get_vin_status_spec.1 " vf1ab 12345 6789012 ").mpr (by decide)

theorem map_brand_of_strip_empty (b : String) (h : pyStrip b = "") :
    map_brand (some b) = "" := by
  have hb : normSU b = "" := by
    unfold normSU
    rw [h]
    rfl
  have hbody : map_brand (some b)
      = (match brandTable.find? (fun kc => kc.1 == normSU b) with
        | some kc => kc.2
        | none =>
          match brandTable.find? (fun kc => containsStr (normSU b) kc.1) with
          | some kc => kc.2
          | none => normSU b) := rfl
  rw [hbody]
  simp only [hb]
  rfl

theorem clean_model_name_body (r : Row) :
    clean_model_name r
      = (if normSU (strOfScalar r.MODEL) = "" then ""
        else if normSU (strOfScalar r.BRAND) ≠ ""
            ∧ (normSU (strOfScalar r.BRAND)).toList.isPrefixOf
                (normSU (strOfScalar r.MODEL)).toList then
          (pyStripL ((normSU (strOfScalar r.MODEL)).toList.drop
            (normSU (strOfScalar r.BRAND)).toList.length)).asString
        else
          match legacyPrefixTable.find? (fun pc => pc.1 == map_brand r.BRAND) with
          | some pc =>
            if pc.2.toList.isPrefixOf (normSU (strOfScalar r.MODEL)).toList then
              let stripped := (pyStripL ((normSU (strOfScalar r.MODEL)).toList.drop 1)).asString
              if stripped ≠ "" then stripped else normSU (strOfScalar r.MODEL)
            else normSU (strOfScalar r.MODEL)
          | none => normSU (strOfScalar r.MODEL)) := rfl

theorem cmn_empty_brand_eq (r : Row) (h : pyStrip (strOfScalar r.BRAND) = "") :
    clean_model_name r = normSU (strOfScalar r.MODEL) := by
  obtain ⟨b, hb⟩ : ∃ b, r.BRAND = some b := by
    cases hB : r.BRAND with
    | none => exact absurd h (by rw [hB]; decide)
    | some b => exact ⟨b, rfl⟩
  have hsb : strOfScalar r.BRAND = b := by rw [hb]; rfl
  rw [hsb] at h
  have hraw : normSU (strOfScalar r.BRAND) = "" := by
    unfold normSU
    rw [hsb, h]
    rfl
  have hcode : map_brand r.BRAND = "" := by
    rw [hb]
    exact map_brand_of_strip_empty b h
  rw [clean_model_name_body r, hraw, hcode]
  by_cases hm : normSU (strOfScalar r.MODEL) = ""
  · rw [if_pos hm, hm]
  · rw [if_neg hm, if_neg (by simp)]
    rfl

/-- Claim C9: with an empty brand field, `clean_model_name` returns exactly
the uppercased and trimmed model, and is therefore idempotent. -/
theorem clean_model_empty_brand (r : Row) (h : pyStrip (strOfScalar r.BRAND) = "") :
    clean_model_name r = normSU (strOfScalar r.MODEL)
    ∧ clean_model_name { r with MODEL := some (clean_model_name r) }
      = clean_model_name r := by
  refine ⟨cmn_empty_brand_eq r h, ?_⟩
  have h2 := cmn_empty_brand_eq { r with MODEL := some (clean_model_name r) } h
  rw [h2, cmn_empty_brand_eq r h]
  show normSU (normSU (strOfScalar r.MODEL)) = normSU (strOfScalar r.MODEL)
  exact normSU_idem _

theorem findHeaderAux_some (k : Nat) (g : List (List Scalar)) (i : Nat)
    (h : findHeaderAux k g = some i) :
    i < k ∧ i < g.length ∧ goodHeader (g.getD i []) = true
      ∧ ∀ j, j < i → goodHeader (g.getD j []) = false := by
  induction g generalizing k i with
  | nil => cases k <;> simp [findHeaderAux] at h
  | cons row rest ih =>
    cases k with
    | zero => simp [findHeaderAux] at h
    | succ k' =>
      simp only [findHeaderAux] at h
      by_cases hg : goodHeader row = true
      · rw [if_pos hg] at h
        simp at h
        subst h
        exact ⟨Nat.succ_pos _, by simp, by simpa using hg,
          fun j hj => absurd hj (Nat.not_lt_zero j)⟩
      · rw [if_neg hg] at h
        cases hf : findHeaderAux k' rest with
        | none =>
          rw [hf] at h
          simp at h
        | some i' =>
          rw [hf] at h
          simp at h
          obtain ⟨h1, h2, h3, h4⟩ := ih k' i' hf
          subst h
          refine ⟨by omega, by simp; omega, by simpa using h3, ?_⟩
          intro j hj
          cases j with
          | zero => simpa using hg
          | succ j' =>
            rw [List.getD_cons_succ]
            exact h4 j' (by omega)

theorem findHeaderAux_none (k : Nat) (g : List (List Scalar)) :
    findHeaderAux k g = none
      ↔ ∀ j, j < k → j < g.length → goodHeader (g.getD j []) = false := by
  induction g generalizing k with
  | nil => cases k <;> simp [findHeaderAux]
  | cons row rest ih =>
    cases k with
    | zero => simp [findHeaderAux]
    | succ k' =>
      simp only [findHeaderAux]
      by_cases hg : goodHeader row = true
      · rw [if_pos hg]
        simp only [reduceCtorEq, false_iff]
        intro hall
        have h0 := hall 0 (Nat.succ_pos _) (by simp)
        rw [List.getD_cons_zero] at h0
        rw [h0] at hg
        cases hg
      · rw [if_neg hg]
        rw [Option.map_eq_none', ih k']
        constructor
        · intro hall j hj hjl
          cases j with
          | zero => simpa using hg
          | succ j' =>
            rw [List.getD_cons_succ]
            exact hall j' (by omega) (by simpa using hjl)
        · intro hall j hj hjl
          have := hall (j + 1) (by omega) (by simp; omega)
          rw [List.getD_cons_succ] at this
          exact this

/-- Claim C5: `find_header_row` never returns a COUNT OF row; it returns the
lowest row index within the scan limit that is not COUNT-OF flagged, has a
VIN-like label and a context keyword, and returns `none` when no row within
the limit qualifies. -/
theorem find_header_row_spec (g : Grid) (limit : Nat) :
    (∀ i, find_header_row g limit = some i →
      i < limit ∧ i < g.length
      ∧ rowHasCountOf (g.getD i []) = false
      ∧ rowHasVin (g.getD i []) = true
      ∧ rowHasContext (g.getD i []) = true
      ∧ ∀ j, j < i → goodHeader (g.getD j []) = false)
    ∧ (find_header_row g limit = none ↔
        ∀ j, j < limit → j < g.length → goodHeader (g.getD j []) = false) := by
  constructor
  · intro i h
    obtain ⟨h1, h2, h3, h4⟩ := findHeaderAux_some limit g i h
    unfold goodHeader at h3
    simp only [Bool.and_eq_true, Bool.not_eq_true'] at h3
    exact ⟨h1, h2, h3.1, h3.2.1, h3.2.2, h4⟩
  · exact findHeaderAux_none limit g

/-- Witness for C5 at the spec's scenario 1 grid: the pivot row 0 with
"Count of VIN" is skipped and row 1 is returned. -/
theorem find_header_row_spec_witness :
    rowHasCountOf ([[some "Count of VIN", some "5"],
      [some "VIN", some "MAKE", some "MODEL"],
      [some "VF1AB123456789012", some "PEUGEOT", some "P208"]].getD 1 []) = false
    ∧ rowHasVin ([[some "Count of VIN", some "5"],
      [some "VIN", some "MAKE", some "MODEL"],
      [some "VF1AB123456789012", some "PEUGEOT", some "P208"]].getD 1 []) = true
    ∧ goodHeader ([[some "Count of VIN", some "5"],
      [some "VIN", some "MAKE", some "MODEL"],
      [some "VF1AB123456789012", some "PEUGEOT", some "P208"]].getD 0 []) = false := by
  have h := (find_header_row_spec [[some "Count of VIN", some "5"],
    [some "VIN", some "MAKE", some "MODEL"],
    [some "VF1AB123456789012", some "PEUGEOT", some "P208"]] 50).1 1 (by decide)
  exact ⟨h.2.2.1, h.2.2.2.1, h.2.2.2.2.2 0 (by omega)⟩

theorem dedupVinAux_mem (l : List Rec) :
    ∀ (seen : List Scalar) (r : Rec), r ∈ dedupVinAux seen l → r ∈ l := by
  induction l with
  | nil => intro seen r h; simp [dedupVinAux] at h
  | cons x rs ih =>
    intro seen r h
    simp only [dedupVinAux] at h
    by_cases hx : x.VIN ∈ seen
    · rw [if_pos hx] at h
      exact List.mem_cons_of_mem _ (ih _ _ h)
    · rw [if_neg hx] at h
      rcases List.mem_cons.mp h with rfl | h'
      · exact List.mem_cons_self _ _
      · exact List.mem_cons_of_mem _ (ih _ _ h')

theorem dedupVinAux_find (l : List Rec) :
    ∀ (seen : List Scalar) (r : Rec), r ∈ dedupVinAux seen l →
      ¬ r.VIN ∈ seen ∧ l.find? (fun x => decide (x.VIN = r.VIN)) = some r := by
  induction l with
  | nil => intro seen r h; simp [dedupVinAux] at h
  | cons x rs ih =>
    intro seen r h
    simp only [dedupVinAux] at h
    by_cases hx : x.VIN ∈ seen
    · rw [if_pos hx] at h
      obtain ⟨hns, hf⟩ := ih seen r h
      have hne : ¬ (x.VIN = r.VIN) := fun he => hns (he ▸ hx)
      refine ⟨hns, ?_⟩
      rw [List.find?_cons_of_neg _ (by simpa using hne), hf]
    · rw [if_neg hx] at h
      rcases List.mem_cons.mp h with rfl | h'
      · exact ⟨hx, by rw [List.find?_cons_of_pos _ (by simp)]⟩
      · obtain ⟨hns, hf⟩ := ih _ _ h'
        have hnseen : ¬ r.VIN ∈ seen := fun hc => hns (List.mem_cons_of_mem _ hc)
        have hne : ¬ (x.VIN = r.VIN) := by
          intro he
          exact hns (he ▸ List.mem_cons_self _ _)
        exact ⟨hnseen, by rw [List.find?_cons_of_neg _ (by simpa using hne), hf]⟩

theorem dedupVinAux_nodup (l : List Rec) :
    ∀ seen : List Scalar, ((dedupVinAux seen l).map Rec.VIN).Nodup := by
  induction l with
  | nil => intro seen; simp [dedupVinAux]
  | cons x rs ih =>
    intro seen
    simp only [dedupVinAux]
    by_cases hx : x.VIN ∈ seen
    · rw [if_pos hx]
      exact ih seen
    · rw [if_neg hx]
      rw [List.map_cons, List.nodup_cons]
      refine ⟨?_, ih _⟩
      intro hmem
      obtain ⟨r', hr', hrv⟩ := List.mem_map.mp hmem
      have := (dedupVinAux_find rs (x.VIN :: seen) r' hr').1
      exact this (hrv ▸ List.mem_cons_self _ _)

theorem dedupVinAux_finset (l : List Rec) :
    ∀ seen : List Scalar, ((dedupVinAux seen l).map Rec.VIN).toFinset
      = (l.map Rec.VIN).toFinset \ seen.toFinset := by
  induction l with
  | nil => intro seen; simp [dedupVinAux]
  | cons x rs ih =>
    intro seen
    simp only [dedupVinAux]
    by_cases hx : x.VIN ∈ seen
    · rw [if_pos hx, ih seen]
      ext v
      simp only [Finset.mem_sdiff, List.mem_toFinset, List.map_cons,
        List.toFinset_cons, Finset.mem_insert]
      constructor
      · rintro ⟨hv, hns⟩
        exact ⟨Or.inr hv, hns⟩
      · rintro ⟨hv | hv, hns⟩
        · exact absurd (hv ▸ hx) hns
        · exact ⟨hv, hns⟩
    · rw [if_neg hx]
      ext v
      rw [List.map_cons, List.toFinset_cons]
      simp only [Finset.mem_insert, List.mem_toFinset, Finset.mem_sdiff,
        List.map_cons, List.toFinset_cons]
      rw [← List.mem_toFinset]
      rw [ih (x.VIN :: seen)]
      simp only [Finset.mem_sdiff, List.mem_toFinset, List.toFinset_cons,
        Finset.mem_insert]
      constructor
      · rintro (rfl | ⟨hv, hvn⟩)
        · exact ⟨Or.inl rfl, hx⟩
        · push_neg at hvn
          exact ⟨Or.inr hv, hvn.2⟩
      · rintro ⟨hv | hv, hns⟩
        · exact Or.inl hv
        · by_cases hvx : v = x.VIN
          · exact Or.inl hvx
          · exact Or.inr ⟨hv, by
              push_neg
              exact ⟨hvx, hns⟩⟩

theorem dedupByVin_vins_toFinset (l : List Rec) :
    ((dedupByVin l).map Rec.VIN).toFinset = (l.map Rec.VIN).toFinset := by
  have h := dedupVinAux_finset l []
  simpa using h

theorem dedupByVin_length (l : List Rec) :
    (dedupByVin l).length = ((l.map Rec.VIN).dedup).length := by
  have h1 : ((dedupByVin l).map Rec.VIN).Nodup := dedupVinAux_nodup l []
  calc (dedupByVin l).length
      = ((dedupByVin l).map Rec.VIN).length := (List.length_map _ _).symm
    _ = ((dedupByVin l).map Rec.VIN).toFinset.card := (List.toFinset_card_of_nodup h1).symm
    _ = (l.map Rec.VIN).toFinset.card := by rw [dedupByVin_vins_toFinset]
    _ = (l.map Rec.VIN).dedup.length := List.card_toFinset _

/-- Claim C3: merge-and-deduplicate keeps exactly one record per distinct
VIN (so N inputs with M distinct VINs give M outputs), the survivor is the
first occurrence in the concatenation file then OCR then paste (so a VIN in
both the spreadsheet and the OCR channel keeps the spreadsheet record), and
the reported discard count is N - M. -/
theorem merge_dedup_spec (fileL ocrL pasteL : List Rec) :
    (finalRecords fileL ocrL pasteL).length
        = ((fileL ++ ocrL ++ pasteL).map Rec.VIN).dedup.length
    ∧ (∀ r ∈ finalRecords fileL ocrL pasteL,
        (fileL ++ ocrL ++ pasteL).find? (fun x => decide (x.VIN = r.VIN)) = some r)
    ∧ (∀ v : Scalar, (∃ r ∈ fileL, r.VIN = v) → (∃ r ∈ ocrL, r.VIN = v) →
        (finalRecords fileL ocrL pasteL).find? (fun x => decide (x.VIN = v))
          = fileL.find? (fun x => decide (x.VIN = v)))
    ∧ dedupCount (fileL ++ ocrL ++ pasteL)
        = (fileL ++ ocrL ++ pasteL).length
          - ((fileL ++ ocrL ++ pasteL).map Rec.VIN).dedup.length := by
  refine ⟨dedupByVin_length _, fun r hr => (dedupVinAux_find _ [] r hr).2, ?_, ?_⟩
  · rintro v ⟨rf, hrf, hrfv⟩ -
    have hv_in_l : v ∈ (fileL ++ ocrL ++ pasteL).map Rec.VIN :=
      List.mem_map.mpr ⟨rf, List.mem_append_left _ (List.mem_append_left _ hrf), hrfv⟩
    have hv_out : v ∈ (dedupByVin (fileL ++ ocrL ++ pasteL)).map Rec.VIN := by
      have hm := List.mem_toFinset.mpr hv_in_l
      rw [← dedupByVin_vins_toFinset] at hm
      exact List.mem_toFinset.mp hm
    obtain ⟨r0, hr0, hr0v⟩ := List.mem_map.mp hv_out
    have hsome : ((dedupByVin (fileL ++ ocrL ++ pasteL)).find?
        (fun x => decide (x.VIN = v))).isSome :=
      List.find?_isSome.mpr ⟨r0, hr0, by simp [hr0v]⟩
    obtain ⟨r1, hr1⟩ := Option.isSome_iff_exists.mp hsome
    have hr1mem := List.mem_of_find?_eq_some hr1
    have hr1v : r1.VIN = v := by simpa using List.find?_some hr1
    have hfind_l : (fileL ++ ocrL ++ pasteL).find?
        (fun x => decide (x.VIN = v)) = some r1 := by
      have hf := (dedupVinAux_find (fileL ++ ocrL ++ pasteL) [] r1 hr1mem).2
      rw [hr1v] at hf
      exact hf
    have hfsome : (fileL.find? (fun x => decide (x.VIN = v))).isSome :=
      List.find?_isSome.mpr ⟨rf, hrf, by simp [hrfv]⟩
    obtain ⟨rr, hrr⟩ := Option.isSome_iff_exists.mp hfsome
    have happ : (fileL ++ ocrL ++ pasteL).find? (fun x => decide (x.VIN = v))
        = fileL.find? (fun x => decide (x.VIN = v)) := by
      rw [List.find?_append, List.find?_append, hrr]
      rfl
    show (dedupByVin (fileL ++ ocrL ++ pasteL)).find? (fun x => decide (x.VIN = v))
      = fileL.find? (fun x => decide (x.VIN = v))
    rw [hr1, ← happ, hfind_l]
  · show dedupCount (fileL ++ ocrL ++ pasteL) = _
    unfold dedupCount
    rw [dedupByVin_length]

/-- Witness for C3: a VIN present in both the spreadsheet and OCR channels
with different brands keeps the spreadsheet record after deduplication. -/
theorem merge_dedup_spec_witness :
    (finalRecords [Rec.mk (some "X") "OPEL" "M1"] [Rec.mk (some "X") "FIAT" "M2"] []).find?
        (fun x => decide (x.VIN = some "X"))
      = [Rec.mk (some "X") "OPEL" "M1"].find? (fun x => decide (x.VIN = some "X")) :=
  (merge_dedup_spec [Rec.mk (some "X") "OPEL" "M1"] [Rec.mk (some "X") "FIAT" "M2"] []).2.2.1
    (some "X") ⟨Rec.mk (some "X") "OPEL" "M1", by simp, rfl⟩
    ⟨Rec.mk (some "X") "FIAT" "M2", by simp, rfl⟩

theorem scanAux_token_shape (cs : List Char) :
    ∀ acc cur preT tok, scanAux acc cur cs = some (preT, tok) →
      tok.length = 17 ∧ tok.all isAlnumUp = true := by
  induction cs with
  | nil =>
    intro acc cur preT tok h
    simp only [scanAux] at h
    by_cases hv : vinTokOk cur = true
    · rw [if_pos hv] at h
      simp at h
      obtain ⟨-, h2⟩ := h
      simp only [vinTokOk, Bool.and_eq_true, beq_iff_eq] at hv
      subst h2
      constructor
      · simpa using hv.1
      · rw [List.all_eq_true]
        intro c hc
        rw [List.all_eq_true] at hv
        exact hv.2 c (List.mem_reverse.mp hc)
    · rw [if_neg hv] at h
      cases h
  | cons c rest ih =>
    intro acc cur preT tok h
    simp only [scanAux] at h
    by_cases hw : isWordChar c = true
    · rw [if_pos hw] at h
      exact ih _ _ _ _ h
    · rw [if_neg hw] at h
      by_cases hv : vinTokOk cur = true
      · rw [if_pos hv] at h
        simp at h
        obtain ⟨-, h2⟩ := h
        simp only [vinTokOk, Bool.and_eq_true, beq_iff_eq] at hv
        subst h2
        constructor
        · simpa using hv.1
        · rw [List.all_eq_true]
          intro c' hc'
          rw [List.all_eq_true] at hv
          exact hv.2 c' (List.mem_reverse.mp hc')
      · rw [if_neg hv] at h
        exact ih _ _ _ _ h

theorem fixC_shape (c : Char) (h : isAlnumUp c = true) :
    isAlnumUp (fixC c) = true ∧ fixC c ≠ 'O' ∧ fixC c ≠ 'Q' ∧ fixC c ≠ 'I' := by
  unfold fixC
  split_ifs with h1 h2 h3
  · exact ⟨by decide, by decide, by decide, by decide⟩
  · exact ⟨by decide, by decide, by decide, by decide⟩
  · exact ⟨by decide, by decide, by decide, by decide⟩
  · exact ⟨h, h1, h2, h3⟩

theorem asString_length (l : List Char) : (List.asString l).length = l.length := rfl

theorem extract_records_vin_shape (lines : List String) (db dm : String) :
    ∀ r ∈ extract_vins_from_text lines db dm,
      r.VIN.length = 17
      ∧ ∀ c ∈ r.VIN.toList, isAlnumUp c = true ∧ c ≠ 'O' ∧ c ≠ 'Q' ∧ c ≠ 'I' := by
  intro r hr
  obtain ⟨line, hline, hpl⟩ := List.mem_filterMap.mp hr
  unfold processLine at hpl
  cases hs : lineScan line.toList with
  | none =>
    rw [hs] at hpl
    cases hpl
  | some pt =>
    obtain ⟨preT, tok⟩ := pt
    rw [hs] at hpl
    have hrec := Option.some.inj hpl
    have hVIN : r.VIN = (tok.map fixC).asString := by
      rw [← hrec]
    have hshape := scanAux_token_shape line.toList [] [] preT tok hs
    constructor
    · rw [hVIN, asString_length, List.length_map]
      exact hshape.1
    · intro c hc
      rw [hVIN, asString_toList] at hc
      obtain ⟨c0, hc0, rfl⟩ := List.mem_map.mp hc
      have halnum : isAlnumUp c0 = true := by
        have h2 := hshape.2
        rw [List.all_eq_true] at h2
        exact h2 c0 hc0
      exact fixC_shape c0 halnum

/-- Claim C10: every record produced by the OCR extractor has a VIN of
exactly 17 characters, each an uppercase letter or digit, and none of them
is O, Q or I: the confusion correction acts on the whole token and
preserves its length. -/
theorem ocr_vin_shape (lines : List String) (db dm : String) :
    ∀ r ∈ extract_vins_from_text lines db dm,
      r.VIN.length = 17
      ∧ ∀ c ∈ r.VIN.toList, isAlnumUp c = true ∧ c ≠ 'O' ∧ c ≠ 'Q' ∧ c ≠ 'I' :=
  extract_records_vin_shape lines db dm

/-- Witness for C10: the scenario-4 OCR line yields a record whose VIN is
the corrected 17-character token. -/
theorem ocr_vin_shape_witness :
    (OcrRec.mk "VF1AB123456789012" "PEUGEOT" "208").VIN.length = 17
    ∧ ∀ c ∈ (OcrRec.mk "VF1AB123456789012" "PEUGEOT" "208").VIN.toList,
        isAlnumUp c = true ∧ c ≠ 'O' ∧ c ≠ 'Q' ∧ c ≠ 'I' := by
  have h := ocr_vin_shape ["PEUGEOT 208 VF1AB123456789O12"] "OPEL" "COMBO"
    (OcrRec.mk "VF1AB123456789012" "PEUGEOT" "208") (by decide)
  exact h

theorem splitWSAux_tokens (cs : List Char) :
    ∀ cur, (∀ c ∈ cur, isWSb c = false) →
      ∀ t ∈ splitWSAux cur cs, t ≠ [] ∧ ∀ c ∈ t, isWSb c = false := by
  induction cs with
  | nil =>
    intro cur hcur t ht
    simp only [splitWSAux] at ht
    by_cases hc : cur = []
    · rw [if_pos hc] at ht
      cases ht
    · rw [if_neg hc] at ht
      simp at ht
      subst ht
      exact ⟨by simpa using hc, fun c hcm => hcur c (List.mem_reverse.mp hcm)⟩
  | cons c rest ih =>
    intro cur hcur t ht
    simp only [splitWSAux] at ht
    by_cases hw : isWSb c = true
    · rw [if_pos hw] at ht
      by_cases hc : cur = []
      · rw [if_pos hc] at ht
        exact ih [] (by simp) t ht
      · rw [if_neg hc] at ht
        rcases List.mem_cons.mp ht with rfl | ht'
        · exact ⟨by simpa using hc, fun c' hcm => hcur c' (List.mem_reverse.mp hcm)⟩
        · exact ih [] (by simp) t ht'
    · rw [if_neg hw] at ht
      refine ih (c :: cur) ?_ t ht
      intro c' hc'
      rcases List.mem_cons.mp hc' with rfl | h'
      · simpa using hw
      · exact hcur c' h'

theorem tokenizeWS_tokens (cs : List Char) :
    ∀ t ∈ tokenizeWS cs, t ≠ [] ∧ ∀ c ∈ t, isWSb c = false :=
  splitWSAux_tokens cs [] (by simp)

theorem findBrandTok_none (ps : List (List Char)) :
    findBrandTok ps = none ↔ ∀ p ∈ ps, brandKeyMem p = false := by
  induction ps with
  | nil => simp [findBrandTok]
  | cons p rest ih =>
    simp only [findBrandTok]
    by_cases hp : brandKeyMem p = true
    · rw [if_pos hp]
      simp only [reduceCtorEq, false_iff]
      intro hall
      rw [hall p (List.mem_cons_self _ _)] at hp
      cases hp
    · rw [if_neg hp]
      rw [ih]
      constructor
      · intro hall q hq
        rcases List.mem_cons.mp hq with rfl | hq'
        · simpa using hp
        · exact hall q hq'
      · intro hall q hq
        exact hall q (List.mem_cons_of_mem _ hq)

theorem findBrandTok_split (ps1 : List (List Char)) (bt : List Char)
    (ps2 : List (List Char)) (h1 : ∀ p ∈ ps1, brandKeyMem p = false)
    (h2 : brandKeyMem bt = true) :
    findBrandTok (ps1 ++ bt :: ps2) = some (bt, ps2) := by
  induction ps1 with
  | nil => simp [findBrandTok, h2]
  | cons p ps ih =>
    rw [List.cons_append]
    simp only [findBrandTok]
    rw [if_neg (by simp [h1 p (List.mem_cons_self _ _)])]
    exact ih fun q hq => h1 q (List.mem_cons_of_mem _ hq)

theorem pyStripL_eq_nil_iff (l : List Char) :
    pyStripL l = [] ↔ ∀ c ∈ l, isWSb c = true := by
  unfold pyStripL
  constructor
  · intro h c hc
    rw [List.reverse_eq_nil_iff, List.dropWhile_eq_nil_iff] at h
    rw [← List.takeWhile_append_dropWhile (p := isWSb) (l := l)] at hc
    rcases List.mem_append.mp hc with hc' | hc'
    · exact List.mem_takeWhile_imp hc'
    · exact h c (List.mem_reverse.mpr hc')
  · intro h
    have hd : l.dropWhile isWSb = [] := List.dropWhile_eq_nil_iff.mpr h
    rw [hd]
    rfl

theorem joinTokens_strip_ne (ts : List (List Char)) (hne : ts ≠ [])
    (htok : ∀ t ∈ ts, t ≠ [] ∧ ∀ c ∈ t, isWSb c = false) :
    pyStripL (joinTokens ts) ≠ [] := by
  obtain ⟨t, ts', rfl⟩ := List.exists_cons_of_ne_nil hne
  obtain ⟨htne, htc⟩ := htok t (List.mem_cons_self _ _)
  obtain ⟨c0, t', rfl⟩ := List.exists_cons_of_ne_nil htne
  have hj : ∃ rest, joinTokens ((c0 :: t') :: ts') = c0 :: rest := by
    cases ts' with
    | nil => exact ⟨t', rfl⟩
    | cons b bs => exact ⟨t' ++ ' ' :: joinTokens (b :: bs), rfl⟩
  obtain ⟨rest, hj⟩ := hj
  rw [hj]
  intro hcontra
  rw [pyStripL_eq_nil_iff] at hcontra
  have h1 := hcontra c0 (List.mem_cons_self _ _)
  have h2 := htc c0 (List.mem_cons_self _ _)
  rw [h2] at h1
  cases h1

/-- Claim C7: per OCR line, a first 17-character word token yields exactly
one record whose VIN is the confusion-corrected token; the brand is the
first pre-VIN token (after uppercase/clean/whitespace-split) in the brand
key set with the model the join of all later tokens, the caller defaults
are used when no token matches, a blank recovered model falls back to the
default model, and a line with no token yields nothing. -/
theorem ocr_line_spec (db dm line : String) :
    (lineScan line.toList = none → processLine db dm line = none)
    ∧ (∀ preT tok, lineScan line.toList = some (preT, tok) →
        ∃ r, processLine db dm line = some r
          ∧ r.VIN = (tok.map fixC).asString
          ∧ ((∀ p ∈ ocrParts preT, brandKeyMem p = false) → r.BRAND = db ∧ r.MODEL = dm)
          ∧ (∀ ps1 bt ps2, ocrParts preT = ps1 ++ bt :: ps2 →
              (∀ p ∈ ps1, brandKeyMem p = false) → brandKeyMem bt = true →
              r.BRAND = bt.asString
              ∧ r.MODEL = (if ps2 = [] then dm else (joinTokens ps2).asString))) := by
  constructor
  · intro h
    unfold processLine
    rw [h]
  · intro preT tok h
    cases hf : findBrandTok (ocrParts preT) with
    | none =>
      refine ⟨OcrRec.mk ((tok.map fixC).asString) db dm, ?_, rfl, fun _ => ⟨rfl, rfl⟩, ?_⟩
      · unfold processLine
        rw [h]
        simp only [hf]
        split_ifs <;> rfl
      · intro ps1 bt ps2 hsplit hps1 hbt
        rw [hsplit, findBrandTok_split ps1 bt ps2 hps1 hbt] at hf
        cases hf
    | some bt0 =>
      obtain ⟨btl, after⟩ := bt0
      refine ⟨OcrRec.mk ((tok.map fixC).asString) btl.asString
        (if pyStripL (joinTokens after) = [] then dm else (joinTokens after).asString),
        ?_, rfl, ?_, ?_⟩
      · unfold processLine
        rw [h]
        simp only [hf, asString_toList]
      · intro hnone
        rw [(findBrandTok_none _).mpr hnone] at hf
        cases hf
      · intro ps1 bt ps2 hsplit hps1 hbt
        have hsome : findBrandTok (ocrParts preT) = some (bt, ps2) := by
          rw [hsplit]
          exact findBrandTok_split ps1 bt ps2 hps1 hbt
        rw [hf] at hsome
        have hpair := Option.some.inj hsome
        have hbtl : btl = bt := congrArg Prod.fst hpair
        have hafter : after = ps2 := congrArg Prod.snd hpair
        subst hbtl
        subst hafter
        refine ⟨rfl, ?_⟩
        by_cases hp2 : after = []
        · subst hp2
          rfl
        · have hstrip : ¬ pyStripL (joinTokens after) = [] := by
            apply joinTokens_strip_ne after hp2
            intro t ht
            have hmem : t ∈ ocrParts preT := by
              rw [hsplit]
              exact List.mem_append_right _ (List.mem_cons_of_mem _ ht)
            unfold ocrParts at hmem
            exact tokenizeWS_tokens _ t hmem
          rw [if_neg hp2, if_neg hstrip]

/-- Witness for C7 at the spec's scenario 4: the pre-VIN text recovers
brand PEUGEOT and model 208, and the trailing confusable O is corrected. -/
theorem ocr_line_spec_witness :
    ∃ r, processLine "OPEL" "COMBO" "PEUGEOT 208 VF1AB123456789O12" = some r
      ∧ r.VIN = "VF1AB123456789012" ∧ r.BRAND = "PEUGEOT" ∧ r.MODEL = "208" := by
  obtain ⟨r, hr, hv, -, hsplit⟩ :=
    (ocr_line_spec "OPEL" "COMBO" "PEUGEOT 208 VF1AB123456789O12").2
      ("PEUGEOT 208 ".toList) ("VF1AB123456789O12".toList) (by decide)
  have hbm := hsplit [] ("PEUGEOT".toList) [("208".toList)] (by decide) (by decide) (by decide)
  exact ⟨r, hr, hv.trans (by decide), hbm.1.trans (by decide), hbm.2.trans (by decide)⟩

/-- Witness for C9 at a concrete record with a blank brand cell. -/
theorem clean_model_empty_brand_witness :
    clean_model_name (Row.mk (some "") (some " ") (some " p208 ")) = "P208"
    ∧ clean_model_name (Row.mk (some "") (some " ")
        (some (clean_model_name (Row.mk (some "") (some " ") (some " p208 ")))))
      = clean_model_name (Row.mk (some "") (some " ") (some " p208 ")) := by
  have h := clean_model_empty_brand
    (Row.mk (some "") (some " ") (some " p208 ")) (by decide)
  refine ⟨?_, h.2⟩
  rw [h.1]
  rfl

theorem pasteRows_vins (rows : List Row) :
    (pasteRows rows).map Rec.VIN = (rows.filter vinKeep).map Row.VIN := by
  induction rows with
  | nil => rfl
  | cons row rest ih =>
    show ((((row :: rest).map withCleanModel).filter vinKeep).map normBrand).map Rec.VIN = _
    rw [List.map_cons, List.filter_cons, List.filter_cons]
    have hk : vinKeep (withCleanModel row) = vinKeep row := rfl
    rw [hk]
    by_cases h : vinKeep row = true
    · rw [if_pos h, if_pos h, List.map_cons, List.map_cons, List.map_cons]
      exact congrArg₂ List.cons rfl ih
    · rw [if_neg h, if_neg h]
      exact ih

theorem sheetRows_vins (rows : List Row) :
    (sheetRows rows).map Rec.VIN = (rows.filter vinBrandKeep).map Row.VIN := by
  induction rows with
  | nil => rfl
  | cons row rest ih =>
    show ((((row :: rest).map withCleanModel).filter vinBrandKeep).map normBrand).map Rec.VIN = _
    rw [List.map_cons, List.filter_cons, List.filter_cons]
    have hk : vinBrandKeep (withCleanModel row) = vinBrandKeep row := rfl
    rw [hk]
    by_cases h : vinBrandKeep row = true
    · rw [if_pos h, if_pos h, List.map_cons, List.map_cons, List.map_cons]
      exact congrArg₂ List.cons rfl ih
    · rw [if_neg h, if_neg h]
      exact ih

/-- Counterexample to C4 as stated: the pasted-text channel keeps a record
whose VIN passed validation, yet its stored vin field is still the raw
scalar `" vf1ab 12345 6789012 "`, not the cleaned `"VF1AB123456789012"`. -/
theorem vin_not_rewritten_cex :
    (get_vin_status (some " vf1ab 12345 6789012 ")).fst = true
    ∧ pasteRows [Row.mk (some " vf1ab 12345 6789012 ") (some "X") (some "M")]
        = [Rec.mk (some " vf1ab 12345 6789012 ") "X" "M"]
    ∧ (some " vf1ab 12345 6789012 " : Scalar) ≠ some "VF1AB123456789012" :=
  ⟨by decide, by decide, by decide⟩

/-- Claim C4 amended: `get_vin_status` judges validity of the cleaned form
(so `" vf1ab 12345 6789012 "` cleans to `VF1AB123456789012` and is valid),
but the spreadsheet and pasted-text channels keep each record's vin field
as the raw scalar that was read; the cleaned string is never written back. -/
theorem vin_field_preserved (rows : List Row) :
    (pasteRows rows).map Rec.VIN = (rows.filter vinKeep).map Row.VIN
    ∧ (sheetRows rows).map Rec.VIN = (rows.filter vinBrandKeep).map Row.VIN
    ∧ (vinCleanL " vf1ab 12345 6789012 ").asString = "VF1AB123456789012"
    ∧ (get_vin_status (some " vf1ab 12345 6789012 ")).fst = true :=
  ⟨pasteRows_vins rows, sheetRows_vins rows, by decide, by decide⟩

theorem sheetRows_props (rows : List Row) :
    ∀ r ∈ sheetRows rows, (get_vin_status r.VIN).fst = true
      ∧ ∃ x : Scalar, r.BRAND = map_brand x ∧ pyStrip (strOfScalar x) ≠ "" := by
  intro r hr
  unfold sheetRows at hr
  obtain ⟨row, hrowmem, hrow⟩ := List.mem_map.mp hr
  obtain ⟨hmem2, hkeep⟩ := List.mem_filter.mp hrowmem
  unfold vinBrandKeep at hkeep
  rw [Bool.and_eq_true] at hkeep
  obtain ⟨hvin, hbrand⟩ := hkeep
  subst hrow
  exact ⟨hvin, row.BRAND, rfl, of_decide_eq_true hbrand⟩

theorem pasteRows_props (rows : List Row) :
    ∀ r ∈ pasteRows rows, (get_vin_status r.VIN).fst = true := by
  intro r hr
  unfold pasteRows at hr
  obtain ⟨row, hrowmem, hrow⟩ := List.mem_map.mp hr
  obtain ⟨hmem2, hkeep⟩ := List.mem_filter.mp hrowmem
  subst hrow
  exact hkeep

theorem tab1Records_props (gs : List Grid) :
    ∀ r ∈ tab1Records gs, (get_vin_status r.VIN).fst = true
      ∧ ∃ x : Scalar, r.BRAND = map_brand x ∧ pyStrip (strOfScalar x) ≠ "" := by
  intro r hr
  unfold tab1Records at hr
  rw [List.mem_flatten] at hr
  obtain ⟨l, hl, hrl⟩ := hr
  obtain ⟨g, hg, hgl⟩ := List.mem_map.mp hl
  subst hgl
  unfold sheetRecords at hrl
  cases hps : processSheet g with
  | skippedEmpty =>
    rw [hps] at hrl
    cases hrl
  | noHeader =>
    rw [hps] at hrl
    cases hrl
  | crashed e =>
    rw [hps] at hrl
    cases hrl
  | ok rs =>
    rw [hps] at hrl
    unfold processSheet at hps
    split at hps
    · simp at hps
    · split at hps
      · simp at hps
      · split at hps
        · simp at hps
        · have hrs : sheetRows (sheetToRows g _) = rs := SheetResult.ok.inj hps
          rw [← hrs] at hrl
          exact sheetRows_props _ r hrl

/-- Counterexample to C1 as stated: with an empty spreadsheet channel, the
OCR line `ABCDEFGHJKLMNPRST` and one pasted row with a valid VIN and empty
brand, the final deduplicated set contains a record whose VIN fails
`get_vin_status` (the OCR one) and a record whose normalized brand is empty
(the pasted one). -/
theorem final_set_invariant_cex :
    finalRecords (tab1Records []) (ocrChannel ["ABCDEFGHJKLMNPRST"] "OPEL" "COMBO")
        (pasteRows [Row.mk (some "VF1AB123456789012") (some "") (some "")])
      = [Rec.mk (some "ABCDEFGHJKLMNPRST") "OPEL" "COMBO",
         Rec.mk (some "VF1AB123456789012") "" ""]
    ∧ (get_vin_status (some "ABCDEFGHJKLMNPRST")).fst = false
    ∧ (Rec.mk (some "VF1AB123456789012") "" "").BRAND = "" :=
  ⟨by decide, by decide, rfl⟩

/-- Claim C1 amended: every final record comes from one of the three
channels; spreadsheet-channel records have a validated VIN and a brand
normalized from a raw scalar whose string form is non-blank (a NaN brand
cell still normalizes to the empty string); pasted-text records have a
validated VIN but no brand guarantee; OCR records have 17-character
`[A-Z0-9]` VINs free of O/Q/I but are not VIN-validated and carry no brand
guarantee. -/
theorem final_set_channel_guarantees (gs : List Grid) (ocrLines : List String)
    (db dm : String) (prows : List Row) :
    ∀ r ∈ finalRecords (tab1Records gs) (ocrChannel ocrLines db dm) (pasteRows prows),
      (r ∈ tab1Records gs ∨ r ∈ ocrChannel ocrLines db dm ∨ r ∈ pasteRows prows)
      ∧ (r ∈ tab1Records gs → (get_vin_status r.VIN).fst = true
          ∧ ∃ x : Scalar, r.BRAND = map_brand x ∧ pyStrip (strOfScalar x) ≠ "")
      ∧ (r ∈ pasteRows prows → (get_vin_status r.VIN).fst = true)
      ∧ (r ∈ ocrChannel ocrLines db dm →
          ∃ s : String, r.VIN = some s ∧ s.length = 17
            ∧ ∀ c ∈ s.toList, isAlnumUp c = true ∧ c ≠ 'O' ∧ c ≠ 'Q' ∧ c ≠ 'I') := by
  intro r hr
  have hmem : r ∈ tab1Records gs ++ ocrChannel ocrLines db dm ++ pasteRows prows :=
    dedupVinAux_mem _ [] r hr
  refine ⟨?_, fun h => tab1Records_props gs r h, fun h => pasteRows_props prows r h,
    fun h => ?_⟩
  · rcases List.mem_append.mp hmem with h | h
    · rcases List.mem_append.mp h with h' | h'
      · exact Or.inl h'
      · exact Or.inr (Or.inl h')
    · exact Or.inr (Or.inr h)
  · unfold ocrChannel at h
    obtain ⟨r0, hr0, hr0e⟩ := List.mem_map.mp h
    have hshape := extract_records_vin_shape ocrLines db dm r0 hr0
    subst hr0e
    exact ⟨r0.VIN, rfl, hshape.1, hshape.2⟩

/-- Witness for the amended C1 at a concrete run: the scenario-1 sheet
gives one spreadsheet-channel record whose VIN passes validation. -/
theorem final_set_channel_guarantees_witness :
    (get_vin_status (Rec.mk (some "VF1AB123456789012") "PEUG" "208").VIN).fst = true := by
  have h := final_set_channel_guarantees
    [[[some "Count of VIN", some "5"], [some "VIN", some "MAKE", some "MODEL"],
      [some "VF1AB123456789012", some "PEUGEOT", some "P208"]]] [] "OPEL" "COMBO" []
    (Rec.mk (some "VF1AB123456789012") "PEUG" "208") (by decide)
  exact (h.2.1 (by decide)).1

theorem tab1Records_append (gs1 gs2 : List Grid) :
    tab1Records (gs1 ++ gs2) = tab1Records gs1 ++ tab1Records gs2 := by
  unfold tab1Records
  rw [List.map_append, List.flatten_append]

/-- Counterexample to C8 as stated: a sheet whose header is its last row
leaves zero data rows, so the status unpacking raises and the bare
`except: continue` swallows it; nothing is surfaced — no per-sheet status,
reason or message records the fault. -/
theorem sheet_fault_silent_cex :
    processSheet [[some "VIN", some "MAKE"]]
      = SheetResult.crashed "not enough values to unpack (expected 2, got 0)"
    ∧ tab1Messages [[[some "VIN", some "MAKE"]]] = [] :=
  ⟨by decide, by decide⟩

/-- Claim C8 amended: a fault in one sheet's chain degrades that sheet to
zero records and never aborts the remaining sheets, but the error is
swallowed: the faulting sheet contributes nothing and the surrounding
sheets' records are exactly those of the run without it. -/
theorem sheet_fault_isolated (gs1 gs2 : List Grid) (g : Grid) (e : String)
    (h : processSheet g = SheetResult.crashed e) :
    tab1Records (gs1 ++ g :: gs2) = tab1Records (gs1 ++ gs2)
    ∧ sheetRecords g = [] := by
  have hrec : sheetRecords g = [] := by
    unfold sheetRecords
    rw [h]
  constructor
  · unfold tab1Records
    rw [List.map_append, List.map_cons, List.flatten_append, List.flatten_cons, hrec,
      List.nil_append, List.map_append, List.flatten_append]
  · exact hrec

/-- Witness for the amended C8: a concrete crashing sheet between two runs. -/
theorem sheet_fault_isolated_witness :
    tab1Records ([] ++ [[some "VIN", some "MAKE"]] ::
        [[[some "Count of VIN", some "5"], [some "VIN", some "MAKE", some "MODEL"],
          [some "VF1AB123456789012", some "PEUGEOT", some "P208"]]])
      = tab1Records ([] ++
        [[[some "Count of VIN", some "5"], [some "VIN", some "MAKE", some "MODEL"],
          [some "VF1AB123456789012", some "PEUGEOT", some "P208"]]])
    ∧ sheetRecords [[some "VIN", some "MAKE"]] = [] :=
  sheet_fault_isolated []
    [[[some "Count of VIN", some "5"], [some "VIN", some "MAKE", some "MODEL"],
      [some "VF1AB123456789012", some "PEUGEOT", some "P208"]]]
    [[some "VIN", some "MAKE"]] "not enough values to unpack (expected 2, got 0)"
    (by decide)

end TSXL
